import Mathlib

/-!
Shallow embedding of the debug editor contribution
(`src/vs/workbench/contrib/debug/browser/debugEditorContribution.ts`).

The TypeScript class `DebugEditorContribution` is a per-editor controller
that reacts to editor and debugger events.  Its pure decision logic is
embedded below as Lean functions over explicit state records; the host
framework's asynchronous calls are modelled as `Except` values, and its
debounce timers (`RunOnceScheduler`) as boolean "pending" flags with
explicit `schedule` / `cancel` / `fire` transitions.
-/

set_option autoImplicit false

namespace DebugEditor

/-! ### Constants (debugEditorContribution.ts lines 38-43) -/

def HOVER_DELAY : Nat := 300

def MAX_NUM_INLINE_VALUES : Nat := 100

def MAX_INLINE_DECORATOR_LENGTH : Nat := 150

def MAX_TOKENIZATION_LINE_LEN : Nat := 500

/-- Modelled from the spec: the host constant `Constants.MAX_SAFE_SMALL_INTEGER`
(`vs/base/common/uint.ts`, not under `src/`), the largest integer kept in a
small-int representation, `1 <<< 30`. -/
def MAX_SAFE_SMALL_INTEGER : Nat := 2 ^ 30

/-! ### Host data model -/

/-- Modelled from the spec: host `Position` (`vs/editor/common/core/position.ts`,
not under `src/`): a line number together with a column. -/
structure Position where
  lineNumber : Nat
  column : Nat
deriving DecidableEq, Repr

/-- Modelled from the spec: host `Range` (`vs/editor/common/core/range.ts`,
not under `src/`): start and end positions. -/
structure ERange where
  startLineNumber : Nat
  startColumn : Nat
  endLineNumber : Nat
  endColumn : Nat
deriving DecidableEq, Repr

/-- Source attached to a stack frame (`IStackFrame.source`):
the fields the contribution reads. -/
structure Source where
  uri : String
  available : Bool
  presentationHint : Option String
deriving DecidableEq, Repr

/-- Stack frame as read by the contribution.  `frameId` stands in for the
JavaScript object identity used by the `exceptionSf !== focusedSf` check. -/
structure StackFrame where
  frameId : Nat
  source : Source
  range : ERange
deriving DecidableEq, Repr

/-- Exception information awaited from `focusedSf.thread.exceptionInfo`;
only its presence matters to the contribution. -/
structure ExceptionInfo where
  description : Option String
deriving DecidableEq, Repr

/-- Standard token classification (`vs/editor/common/modes.ts`). -/
inductive StandardTokenType where
  | Other
  | Comment
  | Str
  | RegEx
deriving DecidableEq, Repr

/-- One token of a tokenized line, as read through
`lineTokens.getStartOffset / getEndOffset / getStandardTokenType`. -/
structure TokenInfo where
  startOffset : Nat
  endOffset : Nat
  tokenType : StandardTokenType
deriving DecidableEq, Repr

/-- One line of the text model: its content and its tokens. -/
structure TextLine where
  content : String
  tokens : List TokenInfo
deriving DecidableEq, Repr

/-- The slice of `ITextModel` the contribution reads: the uri and the lines. -/
structure TextModel where
  uri : String
  lines : List TextLine
deriving DecidableEq, Repr

/-! ### Exception widget (toggleExceptionWidget, lines 262-305) -/

/-- Observable effect of one `toggleExceptionWidget` run: close any existing
widget, show the widget at a position, or leave the widget as it is. -/
inductive ExceptionWidgetAction where
  | close
  | showWidget (lineNumber : Nat) (column : Nat)
  | noop
deriving DecidableEq, Repr

/-- Predicate of the `first(callStack, ...)` call (line 273): the frame is
available and not presentation-hinted `'deemphasize'`.  The TypeScript null
guards on `sf` and `sf.source` are vacuous in the typed model. -/
def isAvailableFrame (sf : StackFrame) : Bool :=
  sf.source.available && sf.source.presentationHint ≠ some "deemphasize"

/-- Embeds `toggleExceptionWidget` (lines 262-288).  Inputs are the values the
method reads: the editor model, the focused stack frame, the focused thread's
call stack, whether an exception widget is currently open, and the awaited
`thread.exceptionInfo`.  JavaScript truthiness of `range.startLineNumber` and
`range.startColumn` is `≠ 0`. -/
def toggleExceptionWidget (model : Option TextModel) (focusedSf : Option StackFrame)
    (callStack : List StackFrame) (widgetOpen : Bool)
    (exceptionInfo : Option ExceptionInfo) : ExceptionWidgetAction :=
  match model, focusedSf with
  | some m, some fsf =>
    if callStack.length = 0 then .close
    else
      match callStack.find? isAvailableFrame with
      | none => .close
      | some exceptionSf =>
        if exceptionSf ≠ fsf then .close
        else
          let sameUri : Bool := exceptionSf.source.uri = m.uri
          if widgetOpen ∧ ¬ sameUri then .close
          else if sameUri then
            match exceptionInfo with
            | some _ =>
              if exceptionSf.range.startLineNumber ≠ 0 ∧ exceptionSf.range.startColumn ≠ 0 then
                .showWidget exceptionSf.range.startLineNumber exceptionSf.range.startColumn
              else .noop
            | none => .noop
          else .noop
  | _, _ => .close

/-! ### showHover (lines 148-154) -/

/-- Embeds `showHover`: the hover widget's `showAt(range, focus)` call is the
returned value, `none` meaning the method returned without showing. -/
def showHover (focusedSf : Option StackFrame) (model : Option TextModel)
    (range : ERange) (focus : Bool) : Option (ERange × Bool) :=
  match focusedSf, model with
  | some sf, some m =>
    if sf.source.uri = m.uri then some (range, focus) else none
  | _, _ => none

/-! ### Debug service state and mouse events -/

/-- Debugger state (`State` in `vs/workbench/contrib/debug/common/debug.ts`). -/
inductive State where
  | Inactive
  | Initializing
  | Stopped
  | Running
deriving DecidableEq, Repr

/-- Mouse target types the contribution distinguishes
(`MouseTargetType` of `vs/editor/browser/editorBrowser.ts`). -/
inductive MouseTargetType where
  | UNKNOWN
  | TEXTAREA
  | GUTTER_GLYPH_MARGIN
  | GUTTER_LINE_NUMBERS
  | GUTTER_LINE_DECORATIONS
  | GUTTER_VIEW_ZONE
  | CONTENT_TEXT
  | CONTENT_EMPTY
  | CONTENT_VIEW_ZONE
  | CONTENT_WIDGET
  | OVERVIEW_RULER
  | SCROLLBAR
  | OVERLAY_WIDGET
  | OUTSIDE_EDITOR
deriving DecidableEq, Repr

/-- Modelled from the spec: `DebugHoverWidget.ID`
(`vs/workbench/contrib/debug/browser/debugHover.ts`, not under `src/`). -/
def DebugHoverWidget.ID : String := "debug.hoverWidget"

/-- The parts of an `IEditorMouseEvent` the contribution reads. -/
structure MouseEvent where
  targetType : MouseTargetType
  targetDetail : String
  targetPosition : Option Position
  targetRange : Option ERange
  metaKey : Bool
  ctrlKey : Bool
deriving DecidableEq, Repr

/-- Modelled from the spec: a host `CancellationToken`
(`vs/base/common/cancellation.ts`, not under `src/`); the contribution only
ever uses `CancellationToken.None`, never a cancellable one. -/
inductive CancellationToken where
  | none
  | cancellationRequested
deriving DecidableEq, Repr

/-! ### Hover state machine

The contribution's hover-related fields, together with the pending flags of
its three `RunOnceScheduler`s.  Modelled from the spec: a `RunOnceScheduler`
(`vs/base/common/async.ts`, not under `src/`) is a debounce timer: `schedule`
(re)arms it, `cancel` disarms it, and when the delay elapses it fires its
callback once and disarms itself, so several `schedule` calls before the
timer fires produce a single callback run.  Each scheduler is embedded as a
boolean pending flag; firing is an explicit transition.  `showPassesRun`
counts completed show-hover passes (runs of the `showHoverScheduler`
callback that reached `showHover`). -/

structure HoverState where
  debugState : State
  hoverVisible : Bool
  hoverRange : Option ERange
  nonDebugHoverPosition : Option Position
  mouseDown : Bool
  showHoverScheduled : Bool
  hideHoverScheduled : Bool
  nonDebugHoverScheduled : Bool
  showPassesRun : Nat
deriving DecidableEq, Repr

/-- Embeds `hideHoverWidget` (lines 206-212): schedule the hide pass unless
it is already pending or the widget is not visible, then cancel the pending
show-hover and non-debug-hover timers. -/
def hideHoverWidget (s : HoverState) : HoverState :=
  let s1 := if ¬ s.hideHoverScheduled ∧ s.hoverVisible
    then { s with hideHoverScheduled := true } else s
  { s1 with showHoverScheduled := false, nonDebugHoverScheduled := false }

/-- Embeds the listener registered on `onDidScrollChange` (line 113):
`() => this.hideHoverWidget`.  The arrow-function body is the property
access `this.hideHoverWidget` itself — the method reference is evaluated and
discarded, never invoked — so the handler changes nothing. -/
def onDidScrollChangeListener (s : HoverState) : HoverState :=
  s

/-- Embeds the `showHoverScheduler` firing (lines 170-180): when the timer
elapses while armed, the callback runs `showHover(hoverRange, false)` if a
hover range is set. -/
def fireShowHoverScheduler (s : HoverState) : HoverState :=
  if s.showHoverScheduled then
    let s1 := { s with showHoverScheduled := false }
    if s1.hoverRange.isSome then { s1 with showPassesRun := s1.showPassesRun + 1 } else s1
  else s

/-- Embeds the `provideNonDebugHoverScheduler` callback (lines 194-204): if
the editor has a model and a non-debug hover position is recorded, call
`getHover(model, position, CancellationToken.None)`.  The returned value
records the arguments of that call, `none` meaning no call was made. -/
def provideNonDebugHoverRun (hasModel : Bool)
    (nonDebugHoverPosition : Option Position) : Option (Position × CancellationToken) :=
  if hasModel then
    match nonDebugHoverPosition with
    | some p => some (p, CancellationToken.none)
    | none => none
  else none

/-- Embeds `onEditorMouseMove` (lines 225-250).  `isMacintosh` selects the
stop key (`metaKey` on macOS, `ctrlKey` otherwise); `enableAllHovers` is the
`debug.enableAllHovers` configuration value. -/
def onEditorMouseMove (isMacintosh : Bool) (enableAllHovers : Bool)
    (ev : MouseEvent) (s : HoverState) : HoverState :=
  if s.debugState ≠ State.Stopped then s
  else
    let s1 := if enableAllHovers ∧ ev.targetPosition.isSome
      then { s with nonDebugHoverPosition := ev.targetPosition, nonDebugHoverScheduled := true }
      else s
    let stopKeyPressed := if isMacintosh then ev.metaKey else ev.ctrlKey
    if ev.targetType = MouseTargetType.CONTENT_WIDGET ∧
        ev.targetDetail = DebugHoverWidget.ID ∧ ¬ stopKeyPressed then
      s1
    else if ev.targetType = MouseTargetType.CONTENT_TEXT then
      match ev.targetRange with
      | some r =>
        if s1.hoverRange ≠ some r then
          { s1 with hoverRange := some r, showHoverScheduled := true }
        else s1
      | none => s1
    else if ¬ s1.mouseDown then hideHoverWidget s1
    else s1

/-! ### Inline value update scheduling (C1) -/

/-- Delay, in milliseconds, of the `updateInlineValuesScheduler`
(line 383). -/
def updateInlineValuesSchedulerDelay : Nat := 200

/-- State relevant to the model-content listener: whether the word-positions
cache is populated, whether the 200ms update scheduler is armed, and how many
update passes (`updateInlineValueDecorations` runs via that scheduler) have
completed. -/
structure InlineUpdateState where
  wordMapCached : Bool
  updateScheduled : Bool
  updatePassesRun : Nat
deriving DecidableEq, Repr

/-- Embeds the `onDidChangeModelContent` listener (lines 97-100): drop the
word-positions cache and (re)arm the 200ms `updateInlineValuesScheduler`.
No update pass runs synchronously. -/
def onDidChangeModelContent (s : InlineUpdateState) : InlineUpdateState :=
  { s with wordMapCached := false, updateScheduled := true }

/-- Embeds the `updateInlineValuesScheduler` firing (lines 378-384): when
the 200ms timer elapses while armed, one update pass runs and the scheduler
disarms. -/
def fireUpdateInlineValuesScheduler (s : InlineUpdateState) : InlineUpdateState :=
  if s.updateScheduled then
    { s with updateScheduled := false, updatePassesRun := s.updatePassesRun + 1 }
  else s

/-- Applies a transition `n` times. -/
def applyN {α : Type} (f : α → α) : Nat → α → α
  | 0, s => s
  | n + 1, s => applyN f n (f s)

/-! ### String helpers for the JavaScript string operations used -/

/-- JavaScript `s.substr(start, len)`: the `len` characters from index
`start` (code units modelled as characters). -/
def jsSubstr (s : String) (start len : Nat) : String :=
  ⟨(s.data.drop start).take len⟩

/-- JavaScript `s.substring(start, stop)` for `start ≤ stop`: the characters
from index `start` up to, excluding, index `stop`. -/
def jsSubstring (s : String) (start stop : Nat) : String :=
  ⟨(s.data.take stop).drop start⟩

/-- Does `hay` start with `needle`? -/
def listStartsWith : List Char → List Char → Bool
  | [], _ => true
  | _ :: _, [] => false
  | n :: ns, h :: hs => n = h && listStartsWith ns hs

/-- Index search of `needle` from position `i` of `hay`. -/
def jsIndexOfAux (needle : List Char) : List Char → Nat → Option Nat
  | [], i => if needle.isEmpty then some i else none
  | h :: hs, i =>
    if listStartsWith needle (h :: hs) then some i else jsIndexOfAux needle hs (i + 1)

/-- JavaScript `hay.indexOf(needle)`: first index of `needle` in `hay`,
`-1` when absent. -/
def jsIndexOf (hay needle : String) : Int :=
  match jsIndexOfAux needle.data hay.data 0 with
  | some i => (i : Int)
  | none => -1

/-- Stable insertion of `a` into `l` sorted by `key`, ascending. -/
def insertByKey {α : Type} (key : α → Int) (a : α) : List α → List α
  | [] => [a]
  | b :: bs => if key b ≤ key a then b :: insertByKey key a bs else a :: b :: bs

/-- Stable sort by `key`, ascending: models the `Array.sort` call with
comparator `(a, b) => key(a) - key(b)`. -/
def sortByKey {α : Type} (key : α → Int) : List α → List α
  | [] => []
  | a :: as => insertByKey key a (sortByKey key as)

/-! ### Association-list helpers: JavaScript `Map` in insertion order -/

/-- JavaScript `map.set(k, v)`: overwrite the entry of `k` in place, or
append a new entry. -/
def mapSet {β : Type} (m : List (String × β)) (k : String) (v : β) : List (String × β) :=
  match m with
  | [] => [(k, v)]
  | (k1, v1) :: rest => if k1 = k then (k1, v) :: rest else (k1, v1) :: mapSet rest k v

/-- JavaScript `map.get(k)`. -/
def mapGet {β : Type} (m : List (String × β)) (k : String) : Option β :=
  (m.find? fun e => e.1 = k).map (·.2)

/-! ### Inline value decorations (lines 414-535) -/

/-- Top-level variable of a scope (`IExpression`): its name and value. -/
structure Expression where
  name : String
  value : String
deriving DecidableEq, Repr

/-- Modelled from the spec: host `Range#containsPosition`
(`vs/editor/common/core/range.ts`, not under `src/`): the position lies
between the range's start and end positions, inclusive. -/
def containsPosition (r : ERange) (p : Position) : Bool :=
  if p.lineNumber < r.startLineNumber || p.lineNumber > r.endLineNumber then false
  else if p.lineNumber = r.startLineNumber && p.column < r.startColumn then false
  else if p.lineNumber = r.endLineNumber && p.column > r.endColumn then false
  else true

/-- Modelled from the spec: host `Range#setStartPosition`
(`vs/editor/common/core/range.ts`, not under `src/`). -/
def setStartPosition (r : ERange) (lineNumber column : Nat) : ERange :=
  { r with startLineNumber := lineNumber, startColumn := column }

/-- Rendering options of an inline value decoration
(the `renderOptions` literal of lines 471-487, flattened). -/
structure InlineValueRenderOptions where
  contentText : String
  backgroundColor : String
  margin : String
  darkColor : String
  lightColor : String
deriving DecidableEq, Repr

/-- An `IDecorationOptions` value as built by the contribution. -/
structure DecorationOptions where
  range : ERange
  after : InlineValueRenderOptions
deriving DecidableEq, Repr

/-- Embeds `createInlineValueDecoration` (lines 458-489): trim the content
text to `MAX_INLINE_DECORATOR_LENGTH` characters plus `'...'` when too long,
and place the decoration after the end of the line. -/
def createInlineValueDecoration (lineNumber : Nat) (contentText : String) : DecorationOptions :=
  let contentText :=
    if contentText.length > MAX_INLINE_DECORATOR_LENGTH then
      jsSubstr contentText 0 MAX_INLINE_DECORATOR_LENGTH ++ "..."
    else contentText
  { range :=
      { startLineNumber := lineNumber
        endLineNumber := lineNumber
        startColumn := MAX_SAFE_SMALL_INTEGER
        endColumn := MAX_SAFE_SMALL_INTEGER }
    after :=
      { contentText := contentText
        backgroundColor := "rgba(255, 200, 0, 0.2)"
        margin := "10px"
        darkColor := "rgba(255, 255, 255, 0.5)"
        lightColor := "rgba(0, 0, 0, 0.5)" } }

/-- Embeds the name-to-value loop of `createInlineValueDecorationsInsideRange`
(lines 415-422): fill the map and stop as soon as it holds
`MAX_NUM_INLINE_VALUES` entries. -/
def buildNameValueMapGo : List Expression → List (String × String) → List (String × String)
  | [], acc => acc
  | expr :: rest, acc =>
    let acc1 := mapSet acc expr.name expr.value
    if MAX_NUM_INLINE_VALUES ≤ acc1.length then acc1
    else buildNameValueMapGo rest acc1

/-- The name-to-value map built from the expression list (lines 415-422). -/
def buildNameValueMap (expressions : List Expression) : List (String × String) :=
  buildNameValueMapGo expressions []

/-- Embeds the token loop body of `getWordToPositionsMap` (lines 510-530):
a token of standard type `Other` whose text matches the word regexp
contributes the position `(lineNumber, tokenStartOffset)` under the matched
word.  `execRe` abstracts `DEFAULT_WORD_REGEXP.exec` (the regexp lives in
`vs/editor/common/model/wordHelper.ts`, not under `src/`). -/
def processToken (execRe : String → Option String) (lineNumber : Nat) (content : String)
    (acc : List (String × List Position)) (tok : TokenInfo) : List (String × List Position) :=
  if tok.tokenType = StandardTokenType.Other then
    match execRe (jsSubstring content tok.startOffset tok.endOffset) with
    | some word =>
      match mapGet acc word with
      | some ps => mapSet acc word (ps ++ [⟨lineNumber, tok.startOffset⟩])
      | none => mapSet acc word [⟨lineNumber, tok.startOffset⟩]
    | none => acc
  else acc

/-- Line loop of `getWordToPositionsMap` (lines 500-531): lines longer than
`MAX_TOKENIZATION_LINE_LEN` are skipped; `lineNumber` is 1-based. -/
def wordMapGo (execRe : String → Option String) :
    Nat → List TextLine → List (String × List Position) → List (String × List Position)
  | _, [], acc => acc
  | lineNumber, line :: rest, acc =>
    let acc1 :=
      if MAX_TOKENIZATION_LINE_LEN < line.content.length then acc
      else line.tokens.foldl (processToken execRe lineNumber line.content) acc
    wordMapGo execRe (lineNumber + 1) rest acc1

/-- Embeds `getWordToPositionsMap` (lines 491-535) on a given model's lines
(the per-instance memoization through `wordToLineNumbersMap` is dropped in
the pure model). -/
def getWordToPositionsMap (execRe : String → Option String)
    (lines : List TextLine) : List (String × List Position) :=
  wordMapGo execRe 1 lines []

/-- JavaScript push into the line-to-names map: create the entry on demand,
append the name unless already present (lines 433-439). -/
def addLineName (m : List (Nat × List String)) (line : Nat) (name : String) :
    List (Nat × List String) :=
  match m with
  | [] => [(line, [name])]
  | (l, names) :: rest =>
    if l = line then (l, if name ∈ names then names else names ++ [name]) :: rest
    else (l, names) :: addLineName rest line name

/-- Embeds the `nameValueMap.forEach` loop (lines 428-443): the unique set
of names occurring on each line inside `range`. -/
def buildLineToNamesMap (nameValueMap : List (String × String))
    (wordToPositionsMap : List (String × List Position)) (range : ERange) :
    List (Nat × List String) :=
  nameValueMap.foldl
    (fun acc entry =>
      match mapGet wordToPositionsMap entry.1 with
      | some positions =>
        positions.foldl
          (fun acc2 position =>
            if containsPosition range position then
              addLineName acc2 position.lineNumber entry.1
            else acc2)
          acc
      | none => acc)
    []

/-- JavaScript `model.getLineContent(line)` with 1-based `line`. -/
def getLineContent (model : TextModel) (line : Nat) : String :=
  ((model.lines.get? (line - 1)).map (·.content)).getD ""

/-- Content text of one line's decoration (lines 447-452): names sorted by
their first occurrence in the line, rendered as `name = value` and joined
with `", "`. -/
def lineDecorationText (model : TextModel) (nameValueMap : List (String × String))
    (line : Nat) (names : List String) : String :=
  let content := getLineContent model line
  String.intercalate ", "
    ((sortByKey (fun name => jsIndexOf content name) names).map
      (fun name => name ++ " = " ++ ((mapGet nameValueMap name).getD "undefined")))

/-- Embeds `createInlineValueDecorationsInsideRange` (lines 414-456). -/
def createInlineValueDecorationsInsideRange (execRe : String → Option String)
    (expressions : List Expression) (range : ERange) (model : TextModel) :
    List DecorationOptions :=
  let nameValueMap := buildNameValueMap expressions
  let wordToPositionsMap := getWordToPositionsMap execRe model.lines
  let lineToNamesMap := buildLineToNamesMap nameValueMap wordToPositionsMap range
  lineToNamesMap.foldl
    (fun decorations entry =>
      decorations ++
        [createInlineValueDecoration entry.1
          (lineDecorationText model nameValueMap entry.1 entry.2)])
    []

/-! ### Asynchronous operations in the `Except` monad (error propagation)

The contribution contains no `try`/`catch`: a rejected host promise rejects
the operation's own promise, and a host exception in a synchronous callee
propagates to the caller.  Each `await`ed host call is a parameter of type
`Except ε _`; the operation is its source control flow lifted into
`Except ε`. -/

/-- A scope of the focused stack frame (`IScope`): the contribution reads
only its optional range; `scopeId` stands in for object identity. -/
structure Scope where
  scopeId : Nat
  range : Option ERange
deriving DecidableEq, Repr

/-- Observable effect of one `updateInlineValueDecorations` run: schedule
the 100ms remove pass (early-return path), or cancel it and set the
computed decorations. -/
inductive InlineDecorationsOutcome where
  | scheduleRemove
  | setDecorations (decorations : List DecorationOptions)
deriving DecidableEq, Repr

/-- Embeds `toggleExceptionWidget` (lines 262-288) with the awaited
`focusedSf.thread.exceptionInfo` as an `Except` parameter: the `await`
happens only on the same-uri path, and a rejection there rejects the
operation. -/
def toggleExceptionWidgetE {ε : Type} (model : Option TextModel)
    (focusedSf : Option StackFrame) (callStack : List StackFrame) (widgetOpen : Bool)
    (exceptionInfoP : Except ε (Option ExceptionInfo)) : Except ε ExceptionWidgetAction :=
  match model, focusedSf with
  | some m, some fsf =>
    if callStack.length = 0 then .ok .close
    else
      match callStack.find? isAvailableFrame with
      | none => .ok .close
      | some exceptionSf =>
        if exceptionSf ≠ fsf then .ok .close
        else
          let sameUri : Bool := exceptionSf.source.uri = m.uri
          if widgetOpen ∧ ¬ sameUri then .ok .close
          else if sameUri then
            exceptionInfoP.bind fun exceptionInfo =>
              match exceptionInfo with
              | some _ =>
                if exceptionSf.range.startLineNumber ≠ 0 ∧ exceptionSf.range.startColumn ≠ 0 then
                  .ok (.showWidget exceptionSf.range.startLineNumber exceptionSf.range.startColumn)
                else .ok .noop
              | none => .ok .noop
          else .ok .noop
  | _, _ => .ok .close

/-- Embeds `showHover` (lines 148-154) with the awaited
`hoverWidget.showAt` as an `Except`-valued parameter. -/
def showHoverE {ε : Type} (focusedSf : Option StackFrame) (model : Option TextModel)
    (range : ERange) (focus : Bool)
    (showAtP : ERange → Bool → Except ε Unit) : Except ε Unit :=
  match focusedSf, model with
  | some sf, some m =>
    if sf.source.uri = m.uri then showAtP range focus else .ok ()
  | _, _ => .ok ()

/-- Embeds `updateInlineValueDecorations` (lines 386-412) with the awaited
`stackFrame.getMostSpecificScopes` and per-scope `getChildren` calls as
`Except`-valued parameters; `inlineValues` is the `debug.inlineValues`
configuration value. -/
def updateInlineValueDecorationsE {ε : Type} (inlineValues : Bool)
    (model : Option TextModel) (stackFrame : Option StackFrame)
    (execRe : String → Option String)
    (scopesP : Except ε (List Scope)) (childrenP : Scope → Except ε (List Expression)) :
    Except ε InlineDecorationsOutcome :=
  match model, stackFrame with
  | some m, some sf =>
    if ¬ inlineValues ∨ m.uri ≠ sf.source.uri then .ok .scheduleRemove
    else
      scopesP.bind fun scopes =>
        (scopes.mapM fun scope =>
          (childrenP scope).bind fun children =>
            let range0 : ERange :=
              ⟨0, 0, sf.range.startLineNumber, sf.range.startColumn⟩
            let range :=
              match scope.range with
              | some r => setStartPosition range0 r.startLineNumber r.startColumn
              | none => range0
            .ok (createInlineValueDecorationsInsideRange execRe children range m)).bind
        fun decorationsPerScope =>
          .ok (.setDecorations (decorationsPerScope.foldl (· ++ ·) []))
  | _, _ => .ok .scheduleRemove

/-! ## Theorems -/

/-! ### Helper lemmas -/

theorem applyN_onDidChangeModelContent (n : Nat) (s : InlineUpdateState) :
    (applyN onDidChangeModelContent n (onDidChangeModelContent s)).updatePassesRun
        = s.updatePassesRun ∧
    (applyN onDidChangeModelContent n (onDidChangeModelContent s)).updateScheduled = true := by
  induction n generalizing s with
  | zero => exact ⟨rfl, rfl⟩
  | succ n ih =>
    have h := ih (onDidChangeModelContent s)
    exact ⟨h.1, h.2⟩

/-- C1: a model-content change never runs the inline-values update pass
synchronously; it only re-arms the 200ms `updateInlineValuesScheduler`, so a
burst of `n + 1` content changes followed by the timer firing performs
exactly one update pass. -/
theorem modelContentChanges_coalesced (s : InlineUpdateState) (n : Nat) :
    (onDidChangeModelContent s).updatePassesRun = s.updatePassesRun ∧
    (onDidChangeModelContent s).updateScheduled = true ∧
    updateInlineValuesSchedulerDelay = 200 ∧
    (fireUpdateInlineValuesScheduler
        (applyN onDidChangeModelContent (n + 1) s)).updatePassesRun
      = s.updatePassesRun + 1 := by
  refine ⟨rfl, rfl, rfl, ?_⟩
  have h : applyN onDidChangeModelContent (n + 1) s
      = applyN onDidChangeModelContent n (onDidChangeModelContent s) := rfl
  have hs := applyN_onDidChangeModelContent n s
  rw [h]
  simp [fireUpdateInlineValuesScheduler, hs.1, hs.2]

/-- C2: the listener registered on `onDidScrollChange` is
`() => this.hideHoverWidget` — the method reference is never invoked — so a
scroll event leaves the hover state untouched, while an actual
`hideHoverWidget` call on the same state would have changed it (scheduling
the hide pass and cancelling the pending show pass). -/
theorem onDidScrollChange_does_not_hide :
    onDidScrollChangeListener
        { debugState := State.Stopped, hoverVisible := true, hoverRange := none,
          nonDebugHoverPosition := none, mouseDown := false, showHoverScheduled := true,
          hideHoverScheduled := false, nonDebugHoverScheduled := false, showPassesRun := 0 }
      = { debugState := State.Stopped, hoverVisible := true, hoverRange := none,
          nonDebugHoverPosition := none, mouseDown := false, showHoverScheduled := true,
          hideHoverScheduled := false, nonDebugHoverScheduled := false, showPassesRun := 0 } ∧
    hideHoverWidget
        { debugState := State.Stopped, hoverVisible := true, hoverRange := none,
          nonDebugHoverPosition := none, mouseDown := false, showHoverScheduled := true,
          hideHoverScheduled := false, nonDebugHoverScheduled := false, showPassesRun := 0 }
      ≠ { debugState := State.Stopped, hoverVisible := true, hoverRange := none,
          nonDebugHoverPosition := none, mouseDown := false, showHoverScheduled := true,
          hideHoverScheduled := false, nonDebugHoverScheduled := false, showPassesRun := 0 } := by
  constructor
  · rfl
  · decide

/-- C4: `showHover` calls the hover widget's `showAt` exactly when a stack
frame is focused, the editor has a model, and the frame's source uri equals
the model's uri; and then it shows at the requested range and focus. -/
theorem showHover_conditions (focusedSf : Option StackFrame) (model : Option TextModel)
    (range : ERange) (focus : Bool) :
    ((showHover focusedSf model range focus).isSome = true ↔
      ∃ sf m, focusedSf = some sf ∧ model = some m ∧ sf.source.uri = m.uri) ∧
    (∀ sf m, focusedSf = some sf → model = some m → sf.source.uri = m.uri →
      showHover focusedSf model range focus = some (range, focus)) := by
  constructor
  · cases focusedSf with
    | none => simp [showHover]
    | some sf =>
      cases model with
      | none => simp [showHover]
      | some m => by_cases h : sf.source.uri = m.uri <;> simp [showHover, h]
  · rintro sf m rfl rfl h
    simp [showHover, h]

theorem showHover_conditions_witness :
    showHover (some ⟨0, ⟨"file:///a.ts", true, none⟩, ⟨1, 1, 1, 1⟩⟩)
        (some ⟨"file:///a.ts", []⟩) ⟨1, 1, 1, 2⟩ true
      = some (⟨1, 1, 1, 2⟩, true) :=
  (showHover_conditions (some ⟨0, ⟨"file:///a.ts", true, none⟩, ⟨1, 1, 1, 1⟩⟩)
      (some ⟨"file:///a.ts", []⟩) ⟨1, 1, 1, 2⟩ true).2
    ⟨0, ⟨"file:///a.ts", true, none⟩, ⟨1, 1, 1, 1⟩⟩ ⟨"file:///a.ts", []⟩ rfl rfl (by decide)

/-- C5: `hideHoverWidget` cancels the pending show-hover and non-debug-hover
timers — so a show pass scheduled before the hide request never fires — and
the non-debug hover pass always invokes `getHover` with
`CancellationToken.None`; no token is ever cancelled. -/
theorem hideHoverWidget_cancels_timers (s : HoverState) :
    (hideHoverWidget s).showHoverScheduled = false ∧
    (hideHoverWidget s).nonDebugHoverScheduled = false ∧
    fireShowHoverScheduler (hideHoverWidget s) = hideHoverWidget s ∧
    (∀ (hasModel : Bool) (pos : Option Position),
      match provideNonDebugHoverRun hasModel pos with
      | some call => call.2 = CancellationToken.none
      | none => True) := by
  refine ⟨?_, ?_, ?_, ?_⟩
  · simp [hideHoverWidget]
  · simp [hideHoverWidget]
  · simp [fireShowHoverScheduler, hideHoverWidget]
  · intro hasModel pos
    cases hasModel <;> cases pos <;> simp [provideNonDebugHoverRun]

/-- C6: while the debugger is not stopped, `onEditorMouseMove` returns at
once: the hover state — ranges, positions, mouse flag and all pending
timers — is unchanged. -/
theorem onEditorMouseMove_noop_when_not_stopped (isMacintosh enableAllHovers : Bool)
    (ev : MouseEvent) (s : HoverState) (h : s.debugState ≠ State.Stopped) :
    onEditorMouseMove isMacintosh enableAllHovers ev s = s := by
  simp [onEditorMouseMove, h]

theorem onEditorMouseMove_noop_witness :
    onEditorMouseMove false true
        ⟨MouseTargetType.CONTENT_TEXT, "", some ⟨1, 1⟩, some ⟨1, 1, 1, 2⟩, false, false⟩
        { debugState := State.Running, hoverVisible := true, hoverRange := none,
          nonDebugHoverPosition := none, mouseDown := false, showHoverScheduled := false,
          hideHoverScheduled := false, nonDebugHoverScheduled := false, showPassesRun := 0 }
      = { debugState := State.Running, hoverVisible := true, hoverRange := none,
          nonDebugHoverPosition := none, mouseDown := false, showHoverScheduled := false,
          hideHoverScheduled := false, nonDebugHoverScheduled := false, showPassesRun := 0 } :=
  onEditorMouseMove_noop_when_not_stopped false true
    ⟨MouseTargetType.CONTENT_TEXT, "", some ⟨1, 1⟩, some ⟨1, 1, 1, 2⟩, false, false⟩
    { debugState := State.Running, hoverVisible := true, hoverRange := none,
      nonDebugHoverPosition := none, mouseDown := false, showHoverScheduled := false,
      hideHoverScheduled := false, nonDebugHoverScheduled := false, showPassesRun := 0 }
    (by decide)

theorem length_mapSet_le {β : Type} (m : List (String × β)) (k : String) (v : β) :
    (mapSet m k v).length ≤ m.length + 1 := by
  induction m with
  | nil => simp [mapSet]
  | cons e rest ih =>
    obtain ⟨k1, v1⟩ := e
    by_cases h : k1 = k
    · simp [mapSet, h]
    · simp only [mapSet, if_neg h, List.length_cons]
      omega

theorem buildNameValueMapGo_le (exprs : List Expression) (acc : List (String × String))
    (h : acc.length < MAX_NUM_INLINE_VALUES) :
    (buildNameValueMapGo exprs acc).length ≤ MAX_NUM_INLINE_VALUES := by
  induction exprs generalizing acc with
  | nil => simpa [buildNameValueMapGo] using Nat.le_of_lt h
  | cons expr rest ih =>
    have hset := length_mapSet_le acc expr.name expr.value
    by_cases hstop : MAX_NUM_INLINE_VALUES ≤ (mapSet acc expr.name expr.value).length
    · simp only [buildNameValueMapGo, if_pos hstop]
      omega
    · simp only [buildNameValueMapGo, if_neg hstop]
      exact ih _ (Nat.lt_of_not_le hstop)

/-- C8: the name-to-value map of `createInlineValueDecorationsInsideRange`
never holds more than `MAX_NUM_INLINE_VALUES` (100) entries, and once an
insertion brings it to that size the remaining expressions are ignored: the
result does not depend on them. -/
theorem nameValueMap_bounded (expressions : List Expression) :
    (buildNameValueMap expressions).length ≤ MAX_NUM_INLINE_VALUES ∧
    (∀ (expr : Expression) (rest rest1 : List Expression) (acc : List (String × String)),
      MAX_NUM_INLINE_VALUES ≤ (mapSet acc expr.name expr.value).length →
      buildNameValueMapGo (expr :: rest) acc = buildNameValueMapGo (expr :: rest1) acc) := by
  constructor
  · exact buildNameValueMapGo_le expressions [] (by simp [MAX_NUM_INLINE_VALUES])
  · intro expr rest rest1 acc h
    simp only [buildNameValueMapGo, if_pos h]

theorem nameValueMap_bounded_witness :
    buildNameValueMapGo
        [⟨"x", "1"⟩, ⟨"y", "2"⟩]
        ((List.range MAX_NUM_INLINE_VALUES).map fun i => (String.mk (List.replicate i 'a'), "v"))
      = buildNameValueMapGo
        [⟨"x", "1"⟩]
        ((List.range MAX_NUM_INLINE_VALUES).map fun i => (String.mk (List.replicate i 'a'), "v")) :=
  (nameValueMap_bounded []).2 ⟨"x", "1"⟩ [⟨"y", "2"⟩] []
    ((List.range MAX_NUM_INLINE_VALUES).map fun i => (String.mk (List.replicate i 'a'), "v"))
    (by decide)

/-- C9: `createInlineValueDecoration` keeps the content text unchanged when
it has at most `MAX_INLINE_DECORATOR_LENGTH` (150) characters and otherwise
trims it to the first 150 characters followed by `'...'` — 153 characters —
and always confines the decoration to the given line with start and end
column `Constants.MAX_SAFE_SMALL_INTEGER`, after the end of the line. -/
theorem createInlineValueDecoration_spec (lineNumber : Nat) (text : String) :
    (createInlineValueDecoration lineNumber text).range
        = ⟨lineNumber, MAX_SAFE_SMALL_INTEGER, lineNumber, MAX_SAFE_SMALL_INTEGER⟩ ∧
    (createInlineValueDecoration lineNumber text).after.contentText
        = (if text.length ≤ MAX_INLINE_DECORATOR_LENGTH then text
           else jsSubstr text 0 MAX_INLINE_DECORATOR_LENGTH ++ "...") ∧
    (createInlineValueDecoration lineNumber text).after.contentText.length
        = (if text.length ≤ MAX_INLINE_DECORATOR_LENGTH then text.length
           else MAX_INLINE_DECORATOR_LENGTH + 3) := by
  by_cases h : text.length ≤ MAX_INLINE_DECORATOR_LENGTH
  · have hgt : ¬ text.length > MAX_INLINE_DECORATOR_LENGTH := by omega
    refine ⟨rfl, ?_, ?_⟩ <;> simp [createInlineValueDecoration, h, hgt]
  · have hgt : text.length > MAX_INLINE_DECORATOR_LENGTH := by omega
    refine ⟨rfl, ?_, ?_⟩
    · simp [createInlineValueDecoration, h, hgt]
    · have hlen : (jsSubstr text 0 MAX_INLINE_DECORATOR_LENGTH ++ "...").length
          = MAX_INLINE_DECORATOR_LENGTH + 3 := by
        have hdata : text.length = text.data.length := rfl
        simp only [jsSubstr, List.drop_zero]
        have happ : (String.mk (text.data.take MAX_INLINE_DECORATOR_LENGTH) ++ "...").length
            = (text.data.take MAX_INLINE_DECORATOR_LENGTH).length + 3 := by
          rw [String.length_append, String.length_mk]
          rfl
        rw [happ, List.length_take]
        omega
      simp [createInlineValueDecoration, h, hgt, hlen]

/-- C3: `toggleExceptionWidget` shows the exception widget exactly when the
editor has a model, a stack frame is focused, the focused frame is the first
frame of the call stack that is available and not hinted `'deemphasize'`,
its source uri equals the model's uri, exception info exists and the frame's
start line and column are nonzero — and then at that line and column; in
each of the degenerate cases (no model, no focused frame, empty call stack,
focused frame not the first available one, or uri mismatch with an open
widget) any existing widget is closed. -/
theorem toggleExceptionWidget_spec (model : Option TextModel) (focusedSf : Option StackFrame)
    (callStack : List StackFrame) (widgetOpen : Bool) (info : Option ExceptionInfo)
    (l c : Nat) :
    (toggleExceptionWidget model focusedSf callStack widgetOpen info
        = ExceptionWidgetAction.showWidget l c ↔
      ∃ m sf, model = some m ∧ focusedSf = some sf ∧
        callStack.find? isAvailableFrame = some sf ∧
        sf.source.uri = m.uri ∧ info.isSome = true ∧
        sf.range.startLineNumber ≠ 0 ∧ sf.range.startColumn ≠ 0 ∧
        l = sf.range.startLineNumber ∧ c = sf.range.startColumn) ∧
    ((model = none ∨ focusedSf = none ∨ callStack = [] ∨
        (∃ sf, focusedSf = some sf ∧ callStack.find? isAvailableFrame ≠ some sf) ∨
        (∃ m sf, model = some m ∧ focusedSf = some sf ∧
          callStack.find? isAvailableFrame = some sf ∧
          sf.source.uri ≠ m.uri ∧ widgetOpen = true)) →
      toggleExceptionWidget model focusedSf callStack widgetOpen info
        = ExceptionWidgetAction.close) := by
  constructor
  · cases model with
    | none => simp [toggleExceptionWidget]
    | some m =>
      cases focusedSf with
      | none => simp [toggleExceptionWidget]
      | some fsf =>
        by_cases hcs : callStack.length = 0
        · have : callStack.find? isAvailableFrame = none := by
            cases callStack with
            | nil => rfl
            | cons a as => simp at hcs
          simp [toggleExceptionWidget, hcs, this]
        · cases hfind : callStack.find? isAvailableFrame with
          | none => simp [toggleExceptionWidget, hcs, hfind]
          | some exceptionSf =>
            by_cases heq : exceptionSf = fsf
            · subst heq
              by_cases huri : exceptionSf.source.uri = m.uri
              · cases info with
                | none => simp [toggleExceptionWidget, hcs, hfind, huri]
                | some i =>
                  by_cases hline : exceptionSf.range.startLineNumber ≠ 0
                      ∧ exceptionSf.range.startColumn ≠ 0
                  · simp [toggleExceptionWidget, hcs, hfind, huri, hline]
                    exact ⟨fun h => ⟨h.1.symm, h.2.symm⟩, fun h => ⟨h.1.symm, h.2.symm⟩⟩
                  · simp [toggleExceptionWidget, hcs, hfind, huri, hline]
                    intro h1 h2 _
                    exact absurd ⟨h1, h2⟩ hline
              · simp [toggleExceptionWidget, hcs, hfind, huri]
                cases widgetOpen <;> simp
            · simp [toggleExceptionWidget, hcs, hfind, heq]
  · rintro (rfl | rfl | rfl | ⟨sf, rfl, hne⟩ | ⟨m, sf, rfl, rfl, hfind, hne, rfl⟩)
    · simp [toggleExceptionWidget]
    · cases model <;> simp [toggleExceptionWidget]
    · cases model <;> cases focusedSf <;> simp [toggleExceptionWidget]
    · cases model with
      | none => simp [toggleExceptionWidget]
      | some m =>
        by_cases hcs : callStack.length = 0
        · simp [toggleExceptionWidget, hcs]
        · cases hfind : callStack.find? isAvailableFrame with
          | none => simp [toggleExceptionWidget, hcs, hfind]
          | some exceptionSf =>
            have : exceptionSf ≠ sf := by
              intro h
              exact hne (h ▸ hfind)
            simp [toggleExceptionWidget, hcs, hfind, this]
    · have hcs : ¬ callStack.length = 0 := by
        intro h
        rw [List.length_eq_zero] at h
        subst h
        simp [List.find?] at hfind
      simp [toggleExceptionWidget, hcs, hfind, hne]

theorem toggleExceptionWidget_spec_witness :
    toggleExceptionWidget (some ⟨"file:///a.ts", []⟩)
        (some ⟨0, ⟨"file:///a.ts", true, none⟩, ⟨3, 2, 3, 9⟩⟩)
        [⟨0, ⟨"file:///a.ts", true, none⟩, ⟨3, 2, 3, 9⟩⟩] false (some ⟨none⟩)
      = ExceptionWidgetAction.showWidget 3 2 ∧
    toggleExceptionWidget none none [] false none = ExceptionWidgetAction.close :=
  ⟨(toggleExceptionWidget_spec (some ⟨"file:///a.ts", []⟩)
      (some ⟨0, ⟨"file:///a.ts", true, none⟩, ⟨3, 2, 3, 9⟩⟩)
      [⟨0, ⟨"file:///a.ts", true, none⟩, ⟨3, 2, 3, 9⟩⟩] false (some ⟨none⟩) 3 2).1.mpr
    ⟨⟨"file:///a.ts", []⟩, ⟨0, ⟨"file:///a.ts", true, none⟩, ⟨3, 2, 3, 9⟩⟩,
      rfl, rfl, by decide, by decide, by decide, by decide, by decide, rfl, rfl⟩,
   (toggleExceptionWidget_spec none none [] false none 0 0).2 (Or.inl rfl)⟩

theorem mapSet_mem {β : Type} (m : List (String × β)) (k : String) (v : β) (e : String × β)
    (h : e ∈ mapSet m k v) : e ∈ m ∨ e = (k, v) := by
  induction m with
  | nil => simpa [mapSet] using h
  | cons hd rest ih =>
    obtain ⟨k1, v1⟩ := hd
    simp only [mapSet] at h
    by_cases hk : k1 = k
    · rw [if_pos hk] at h
      rcases List.mem_cons.mp h with h | h
      · right; rw [h, hk]
      · left; exact List.mem_cons_of_mem _ h
    · rw [if_neg hk] at h
      rcases List.mem_cons.mp h with h | h
      · left; exact h ▸ List.mem_cons_self _ _
      · rcases ih h with h1 | h1
        · left; exact List.mem_cons_of_mem _ h1
        · right; exact h1

theorem mapGet_mem {β : Type} (m : List (String × β)) (k : String) (v : β)
    (h : mapGet m k = some v) : (k, v) ∈ m := by
  unfold mapGet at h
  cases hf : m.find? (fun e => decide (e.1 = k)) with
  | none => rw [hf] at h; simp at h
  | some e =>
    rw [hf] at h
    have hmem := List.mem_of_find?_eq_some hf
    have hpred := List.find?_some hf
    obtain ⟨k1, v1⟩ := e
    simp at h hpred
    subst hpred
    subst h
    exact hmem

/-- Every position stored under every word of the map satisfies `E`. -/
def mapSound (E : String → Position → Prop) (m : List (String × List Position)) : Prop :=
  ∀ w ps, (w, ps) ∈ m → ∀ p, p ∈ ps → E w p

theorem processToken_mem (execRe : String → Option String) (lineNumber : Nat)
    (content : String) (acc : List (String × List Position)) (tok : TokenInfo)
    (w : String) (ps : List Position) (p : Position)
    (h : (w, ps) ∈ processToken execRe lineNumber content acc tok) (hp : p ∈ ps) :
    (∃ ps0, (w, ps0) ∈ acc ∧ p ∈ ps0) ∨
    (tok.tokenType = StandardTokenType.Other ∧
      execRe (jsSubstring content tok.startOffset tok.endOffset) = some w ∧
      p = ⟨lineNumber, tok.startOffset⟩) := by
  unfold processToken at h
  by_cases htt : tok.tokenType = StandardTokenType.Other
  · rw [if_pos htt] at h
    cases hre : execRe (jsSubstring content tok.startOffset tok.endOffset) with
    | none => rw [hre] at h; exact Or.inl ⟨ps, h, hp⟩
    | some word =>
      rw [hre] at h
      dsimp only at h
      cases hget : mapGet acc word with
      | some ps0 =>
        rw [hget] at h
        dsimp only at h
        rcases mapSet_mem _ _ _ _ h with h1 | h1
        · exact Or.inl ⟨ps, h1, hp⟩
        · have hw : w = word := congrArg Prod.fst h1
          have hps : ps = ps0 ++ [⟨lineNumber, tok.startOffset⟩] := congrArg Prod.snd h1
          subst hw
          rw [hps] at hp
          rcases List.mem_append.mp hp with h2 | h2
          · exact Or.inl ⟨ps0, mapGet_mem _ _ _ hget, h2⟩
          · simp only [List.mem_singleton] at h2
            exact Or.inr ⟨htt, rfl, h2⟩
      | none =>
        rw [hget] at h
        dsimp only at h
        rcases mapSet_mem _ _ _ _ h with h1 | h1
        · exact Or.inl ⟨ps, h1, hp⟩
        · have hw : w = word := congrArg Prod.fst h1
          have hps : ps = [⟨lineNumber, tok.startOffset⟩] := congrArg Prod.snd h1
          subst hw
          rw [hps] at hp
          simp only [List.mem_singleton] at hp
          exact Or.inr ⟨htt, rfl, hp⟩
  · rw [if_neg htt] at h
    exact Or.inl ⟨ps, h, hp⟩

theorem foldl_processToken_sound (E : String → Position → Prop)
    (execRe : String → Option String) (lineNumber : Nat) (content : String)
    (toks : List TokenInfo) (acc : List (String × List Position))
    (hacc : mapSound E acc)
    (htok : ∀ tok, tok ∈ toks → ∀ w, tok.tokenType = StandardTokenType.Other →
      execRe (jsSubstring content tok.startOffset tok.endOffset) = some w →
      E w ⟨lineNumber, tok.startOffset⟩) :
    mapSound E (toks.foldl (processToken execRe lineNumber content) acc) := by
  induction toks generalizing acc with
  | nil => exact hacc
  | cons t rest ih =>
    rw [List.foldl_cons]
    refine ih (processToken execRe lineNumber content acc t) ?_ ?_
    · intro w ps hmem p hp
      rcases processToken_mem execRe lineNumber content acc t w ps p hmem hp with
        ⟨ps0, h1, h2⟩ | ⟨h1, h2, h3⟩
      · exact hacc w ps0 h1 p h2
      · exact h3 ▸ htok t (List.mem_cons_self _ _) w h1 h2
    · intro tok htk
      exact htok tok (List.mem_cons_of_mem _ htk)

/-- The property every recorded word position enjoys: it names an `Other`
token matching the word regexp on a line of tokenization-eligible length. -/
def wordMapEntrySound (execRe : String → Option String) (lines : List TextLine)
    (w : String) (p : Position) : Prop :=
  ∃ line, lines.get? (p.lineNumber - 1) = some line ∧
    line.content.length ≤ MAX_TOKENIZATION_LINE_LEN ∧
    ∃ tok, tok ∈ line.tokens ∧ tok.tokenType = StandardTokenType.Other ∧
      execRe (jsSubstring line.content tok.startOffset tok.endOffset) = some w ∧
      p.column = tok.startOffset

theorem wordMapGo_sound (execRe : String → Option String) (lines : List TextLine)
    (rest : List TextLine) (lineNumber : Nat) (acc : List (String × List Position))
    (hln : 1 ≤ lineNumber)
    (hidx : ∀ i, rest.get? i = lines.get? (lineNumber - 1 + i))
    (hacc : mapSound (wordMapEntrySound execRe lines) acc) :
    mapSound (wordMapEntrySound execRe lines) (wordMapGo execRe lineNumber rest acc) := by
  induction rest generalizing lineNumber acc with
  | nil => exact hacc
  | cons line rest1 ih =>
    show mapSound _ (wordMapGo execRe (lineNumber + 1) rest1 _)
    refine ih (lineNumber + 1) _ (by omega) ?_ ?_
    · intro i
      have h := hidx (i + 1)
      simp only [List.get?_cons_succ] at h
      rw [h]
      congr 1
      omega
    · by_cases hlong : MAX_TOKENIZATION_LINE_LEN < line.content.length
      · simpa [hlong] using hacc
      · simp only [if_neg hlong]
        refine foldl_processToken_sound _ execRe lineNumber line.content line.tokens acc hacc ?_
        intro tok htk w htt hre
        have hline : lines.get? (lineNumber - 1) = some line := by
          have h0 := hidx 0
          simp only [List.get?_cons_zero, Nat.add_zero] at h0
          exact h0.symm
        exact ⟨line, hline, by omega, tok, htk, htt, hre, rfl⟩

/-- C10: every position the word-to-positions map of `getWordToPositionsMap`
records lies on a line whose content has at most `MAX_TOKENIZATION_LINE_LEN`
(500) characters — longer lines are skipped entirely — and stems from a
token of standard type `Other` whose text matches the word regexp, at that
token's start offset. -/
theorem getWordToPositionsMap_sound (execRe : String → Option String)
    (lines : List TextLine) (w : String) (ps : List Position) (p : Position)
    (hmem : (w, ps) ∈ getWordToPositionsMap execRe lines) (hp : p ∈ ps) :
    ∃ line, lines.get? (p.lineNumber - 1) = some line ∧
      line.content.length ≤ MAX_TOKENIZATION_LINE_LEN ∧
      ∃ tok, tok ∈ line.tokens ∧ tok.tokenType = StandardTokenType.Other ∧
        execRe (jsSubstring line.content tok.startOffset tok.endOffset) = some w ∧
        p.column = tok.startOffset := by
  have h := wordMapGo_sound execRe lines lines 1 [] (Nat.le_refl 1)
    (fun i => by simp) (fun w1 ps1 h1 => by simp at h1)
  exact h w ps hmem p hp

theorem getWordToPositionsMap_sound_witness :
    ∃ line,
      [(⟨"foo bar", [⟨0, 3, StandardTokenType.Other⟩, ⟨4, 7, StandardTokenType.Comment⟩]⟩ :
          TextLine)].get?
        ((⟨1, 0⟩ : Position).lineNumber - 1) = some line ∧
      line.content.length ≤ MAX_TOKENIZATION_LINE_LEN ∧
      ∃ tok, tok ∈ line.tokens ∧ tok.tokenType = StandardTokenType.Other ∧
        (fun s => if s = "foo" then some "foo" else none)
            (jsSubstring line.content tok.startOffset tok.endOffset) = some "foo" ∧
        (⟨1, 0⟩ : Position).column = tok.startOffset :=
  getWordToPositionsMap_sound (fun s => if s = "foo" then some "foo" else none)
    [⟨"foo bar", [⟨0, 3, StandardTokenType.Other⟩, ⟨4, 7, StandardTokenType.Comment⟩]⟩]
    "foo" [⟨1, 0⟩] ⟨1, 0⟩ (by decide) (by decide)

/-- C7: the contribution neither catches nor transforms host exceptions: on
successful host calls the async `toggleExceptionWidget` computes exactly the
pure result, and whenever a host call that an operation actually awaits
rejects (`Except.error e`), the operation's own promise rejects with the
very same `e` — for `toggleExceptionWidget` (the `exceptionInfo` await on
the same-uri path), `showHover` (the `hoverWidget.showAt` await) and
`updateInlineValueDecorations` (the `getMostSpecificScopes` await). -/
theorem hostErrors_propagate (ε : Type) (e : ε) :
    (∀ (model : Option TextModel) (focusedSf : Option StackFrame)
        (callStack : List StackFrame) (widgetOpen : Bool) (info : Option ExceptionInfo),
      toggleExceptionWidgetE model focusedSf callStack widgetOpen
          (Except.ok info : Except ε (Option ExceptionInfo))
        = Except.ok (toggleExceptionWidget model focusedSf callStack widgetOpen info)) ∧
    (∀ (m : TextModel) (sf : StackFrame) (callStack : List StackFrame) (widgetOpen : Bool),
      callStack.find? isAvailableFrame = some sf → sf.source.uri = m.uri →
      toggleExceptionWidgetE (some m) (some sf) callStack widgetOpen
          (Except.error e : Except ε (Option ExceptionInfo))
        = Except.error e) ∧
    (∀ (sf : StackFrame) (m : TextModel) (range : ERange) (focus : Bool),
      sf.source.uri = m.uri →
      showHoverE (some sf) (some m) range focus (fun _ _ => Except.error e)
        = Except.error e) ∧
    (∀ (m : TextModel) (sf : StackFrame) (execRe : String → Option String)
        (childrenP : Scope → Except ε (List Expression)),
      m.uri = sf.source.uri →
      updateInlineValueDecorationsE true (some m) (some sf) execRe
          (Except.error e) childrenP
        = Except.error e) := by
  refine ⟨?_, ?_, ?_, ?_⟩
  · intro model focusedSf callStack widgetOpen info
    cases model with
    | none => rfl
    | some m =>
      cases focusedSf with
      | none => rfl
      | some fsf =>
        by_cases hcs : callStack.length = 0
        · simp [toggleExceptionWidgetE, toggleExceptionWidget, hcs]
        · cases hf : callStack.find? isAvailableFrame with
          | none => simp [toggleExceptionWidgetE, toggleExceptionWidget, hcs, hf]
          | some exceptionSf =>
            by_cases heq : exceptionSf = fsf
            · subst heq
              by_cases huri : exceptionSf.source.uri = m.uri
              · cases info with
                | none =>
                  simp [toggleExceptionWidgetE, toggleExceptionWidget, hcs, hf, huri,
                    Except.bind]
                | some i =>
                  simp [toggleExceptionWidgetE, toggleExceptionWidget, hcs, hf, huri,
                    Except.bind]
                  split <;> rfl
              · cases widgetOpen <;>
                  simp [toggleExceptionWidgetE, toggleExceptionWidget, hcs, hf, huri]
            · simp [toggleExceptionWidgetE, toggleExceptionWidget, hcs, hf, heq]
  · intro m sf callStack widgetOpen hfind huri
    have hcs : ¬ callStack.length = 0 := by
      intro h0
      rw [List.length_eq_zero] at h0
      subst h0
      simp [List.find?] at hfind
    simp [toggleExceptionWidgetE, hcs, hfind, huri, Except.bind]
  · intro sf m range focus huri
    simp [showHoverE, huri]
  · intro m sf execRe childrenP huri
    simp [updateInlineValueDecorationsE, huri, Except.bind]

theorem hostErrors_propagate_witness :
    toggleExceptionWidgetE (some ⟨"file:///a.ts", []⟩)
        (some ⟨0, ⟨"file:///a.ts", true, none⟩, ⟨1, 1, 1, 1⟩⟩)
        [⟨0, ⟨"file:///a.ts", true, none⟩, ⟨1, 1, 1, 1⟩⟩] false
        (Except.error "rejected" : Except String (Option ExceptionInfo))
      = Except.error "rejected" ∧
    showHoverE (some ⟨0, ⟨"file:///a.ts", true, none⟩, ⟨1, 1, 1, 1⟩⟩)
        (some ⟨"file:///a.ts", []⟩) ⟨1, 1, 1, 2⟩ false
        (fun _ _ => (Except.error "rejected" : Except String Unit))
      = Except.error "rejected" ∧
    updateInlineValueDecorationsE true (some ⟨"file:///a.ts", []⟩)
        (some ⟨0, ⟨"file:///a.ts", true, none⟩, ⟨1, 1, 1, 1⟩⟩) (fun _ => none)
        (Except.error "rejected" : Except String (List Scope))
        (fun _ => Except.ok [])
      = Except.error "rejected" :=
  ⟨(hostErrors_propagate String "rejected").2.1 ⟨"file:///a.ts", []⟩
      ⟨0, ⟨"file:///a.ts", true, none⟩, ⟨1, 1, 1, 1⟩⟩
      [⟨0, ⟨"file:///a.ts", true, none⟩, ⟨1, 1, 1, 1⟩⟩] false (by decide) (by decide),
   (hostErrors_propagate String "rejected").2.2.1
      ⟨0, ⟨"file:///a.ts", true, none⟩, ⟨1, 1, 1, 1⟩⟩ ⟨"file:///a.ts", []⟩
      ⟨1, 1, 1, 2⟩ false (by decide),
   (hostErrors_propagate String "rejected").2.2.2 ⟨"file:///a.ts", []⟩
      ⟨0, ⟨"file:///a.ts", true, none⟩, ⟨1, 1, 1, 1⟩⟩ (fun _ => none)
      (fun _ => Except.ok []) rfl⟩

end DebugEditor
